import Mathlib

/-!
Verification of the husky AI code-review scripts.

The repository's scripts turn a git diff into an evaluation request and parse
the free-text response into an allow/block decision.  Strings are modelled as
`List Char` (JavaScript strings are sequences of code units; all inputs of
interest here are plain text).  Each namespace below embeds one script:

* `Unified`   — `scripts/ai-unified-review.js` (explicit `APPROVAL_STATUS`
  token extractor and the `parseDiff` record normalizer, which is shared
  verbatim with the older unified variant);
* `Legacy`    — the older unified variant (category-section heuristic,
  `filterDiffForAddedLines`, `performReview` error path, `main` early exits)
  together with the configuration table of `scripts/review-config.js`;
* `CodeReview` — `scripts/ai-code-review.js` (score-threshold strategy);
* `Precommit` — `scripts/ai-precommit-review.js` (fast-path variant).
-/

set_option maxRecDepth 10000

namespace HuskyReview

/-- JavaScript's whitespace class (`\s`, and the class used by `trim`),
restricted to the ASCII characters that can occur in the inputs here. -/
def isWS (c : Char) : Bool :=
  c == ' ' || c == '\t' || c == '\n' || c == '\r' || c == '\x0b' || c == '\x0c'

/-- Drop leading whitespace (the effect of matching `\s*` greedily before a
non-whitespace token). -/
def dropWS : List Char → List Char
  | [] => []
  | c :: t => if isWS c then dropWS t else c :: t

/-- JavaScript `String.prototype.trim`. -/
def trimList (s : List Char) : List Char :=
  ((s.dropWhile isWS).reverse.dropWhile isWS).reverse

/-- JavaScript `String.prototype.toLowerCase` on ASCII text. -/
def toLowerList (s : List Char) : List Char := s.map Char.toLower

/-- JavaScript `str.split('\n')`. -/
def splitNl : List Char → List (List Char)
  | [] => [[]]
  | c :: t =>
    if c = '\n' then [] :: splitNl t
    else
      match splitNl t with
      | [] => [[c]]
      | h :: r => (c :: h) :: r

/-- JavaScript `arr.join('\n')`. -/
def joinNl : List (List Char) → List Char
  | [] => []
  | [l] => l
  | l :: ls => l ++ '\n' :: joinNl (ls)

/-- JavaScript `hay.includes(pat)`: `pat` occurs as a contiguous substring. -/
def containsSub (pat : List Char) : List Char → Bool
  | [] => pat.isEmpty
  | c :: t => pat.isPrefixOf (c :: t) || containsSub pat t

/-- JavaScript `hay.indexOf(pat)` (as an `Option` instead of `-1`). -/
def idxOfSub (pat : List Char) : List Char → Option Nat
  | [] => if pat.isEmpty then some 0 else none
  | c :: t =>
    if pat.isPrefixOf (c :: t) then some 0
    else (idxOfSub pat t).map (· + 1)

/-- `line.startsWith('+')`. -/
def isPlus : List Char → Bool
  | [] => false
  | c :: _ => c == '+'

/-- `line.startsWith('-')`. -/
def isMinus : List Char → Bool
  | [] => false
  | c :: _ => c == '-'

/-- `line.startsWith(' ')`. -/
def isSpaceStart : List Char → Bool
  | [] => false
  | c :: _ => c == ' '

/-- After one or more digits, the regex fragment `\d*\.` (continuation of a
`\d+\.` match): more digits may follow, then a literal dot. -/
def dotAfterDigits : List Char → Bool
  | [] => false
  | c :: t => if c = '.' then true else if c.isDigit then dotAfterDigits t else false

/-- Whether the regex `\d+\.` matches at the start of the text. -/
def digitDotHead : List Char → Bool
  | [] => false
  | c :: t => c.isDigit && dotAfterDigits t

/-- Index of the first match of the regex `\d+\.` (`text.match(/\d+\./)`'s
`.index`), if any. -/
def digitDotIdx : List Char → Option Nat
  | [] => none
  | c :: t => if digitDotHead (c :: t) then some 0 else (digitDotIdx t).map (· + 1)

/-- `parseInt` on a non-empty run of decimal digits. -/
def digitsToNat (ds : List Char) : Nat :=
  ds.foldl (fun n c => n * 10 + (c.toNat - '0'.toNat)) 0

end HuskyReview

namespace HuskyReview.Unified

/-- The literal part of the regex `/APPROVAL_STATUS:\s*([01])/`. -/
def approvalLit : List Char := "APPROVAL_STATUS:".toList

/-- Try to match `APPROVAL_STATUS:\s*([01])` at the start of `s`; return the
captured digit. -/
def approvalTail (s : List Char) : Option Char :=
  if approvalLit.isPrefixOf s then
    match dropWS (s.drop approvalLit.length) with
    | '0' :: _ => some '0'
    | '1' :: _ => some '1'
    | _ => none
  else none

/-- The digit captured by `review.match(/APPROVAL_STATUS:\s*([01])/)`: the
regex engine tries each start position left to right and the first position
where the whole pattern matches wins. -/
def findApproval : List Char → Option Char
  | [] => none
  | s@(_ :: t) =>
    match approvalTail s with
    | some d => some d
    | none => findApproval t

/-- `checkForCriticalIssues` of `scripts/ai-unified-review.js` (lines
233–245): blocked iff the approval status found is `0`; if no status token is
present the script logs a diagnostic and does not block. -/
def checkForCriticalIssues (review : List Char) : Bool :=
  match findApproval review with
  | some d => d == '0'
  | none => false

/-- Whether `APPROVAL_STATUS:\s*([01])` matches at position `i` of `s`
(specification-side view of the regex scan, used to state what "the first
match" means). -/
def approvalAt (s : List Char) (i : Nat) : Option Char :=
  approvalTail (s.drop i)

end HuskyReview.Unified

namespace HuskyReview.Unified

/-- `'addition'` / `'deletion'` record tags of `parseDiff`. -/
inductive ChangeKind where
  | addition
  | deletion
deriving DecidableEq

/-- One entry of `additions`/`deletions` in `parseDiff`: `{ file, line, type }`
(`file` is the current file, `null` before any header was seen). -/
structure ChangeRecord where
  file : Option (List Char)
  line : List Char
  kind : ChangeKind
deriving DecidableEq

/-- The `{ additions, deletions, files }` object returned by `parseDiff`. -/
structure DiffResult where
  additions : List ChangeRecord
  deletions : List ChangeRecord
  files : List (List Char)
deriving DecidableEq

/-- The loop state of `parseDiff` (its accumulators plus `currentFile`). -/
structure ParseState where
  additions : List ChangeRecord
  deletions : List ChangeRecord
  files : List (List Char)
  currentFile : Option (List Char)

def gitLit : List Char := "diff --git".toList

def gitALit : List Char := "diff --git a/".toList

def byLit : List Char := " b/".toList

def pppLit : List Char := "+++".toList

def mmmLit : List Char := "---".toList

/-- Continuation of the regex `/diff --git a\/(.+) b\/(.+)/` after the first
group: the greedy first `(.+)` gives the rightmost ` b/` that still leaves at
least one character for the second group; the result is that second group. -/
def afterLastBY : List Char → Option (List Char)
  | [] => none
  | c :: t =>
    match afterLastBY t with
    | some r => some r
    | none =>
      if byLit.isPrefixOf (c :: t) then
        match (c :: t).drop 3 with
        | [] => none
        | r => some r
      else none

/-- Complete the regex after the literal `diff --git a/`: the first group
needs at least one character, so the ` b/` separator must start at index ≥ 1
of `rest`. -/
def group2Of (rest : List Char) : Option (List Char) :=
  match rest with
  | [] => none
  | _ :: t => afterLastBY t

/-- `line.match(/diff --git a\/(.+) b\/(.+)/)` and the captured `match[2]`:
the engine tries each start position (each occurrence of the literal
`diff --git a/`) left to right until the whole pattern matches. -/
def gitHeaderFile : List Char → Option (List Char)
  | [] => none
  | s@(_ :: t) =>
    if gitALit.isPrefixOf s then
      match group2Of (s.drop gitALit.length) with
      | some f => some f
      | none => gitHeaderFile t
    else gitHeaderFile t

/-- `line.substring(1).trim()` — the `cleanLine` of `parseDiff`. -/
def cleanOf (l : List Char) : List Char := trimList (l.drop 1)

/-- `cleanLine && cleanLine.length < 200`: the record is kept only when the
trimmed content is non-empty and shorter than 200 characters. -/
def goodContent (c : List Char) : Bool := !c.isEmpty && decide (c.length < 200)

/-- One iteration of the `for (const line of lines)` loop in `parseDiff`
(`MAX_CHANGES_PER_TYPE = 50`). -/
def parseDiffStep (st : ParseState) (line : List Char) : ParseState :=
  if gitLit.isPrefixOf line then
    match gitHeaderFile line with
    | some f =>
      { st with currentFile := some f,
                files := if st.files.contains f then st.files else st.files ++ [f] }
    | none => st
  else if isPlus line && !pppLit.isPrefixOf line && decide (st.additions.length < 50) then
    if goodContent (cleanOf line) then
      { st with additions :=
          st.additions ++ [⟨st.currentFile, cleanOf line, ChangeKind.addition⟩] }
    else st
  else if isMinus line && !mmmLit.isPrefixOf line && decide (st.deletions.length < 50) then
    if goodContent (cleanOf line) then
      { st with deletions :=
          st.deletions ++ [⟨st.currentFile, cleanOf line, ChangeKind.deletion⟩] }
    else st
  else st

/-- The loop of `parseDiff` run over all lines from the initial state. -/
def parseDiffState (diff : List Char) : ParseState :=
  (splitNl diff).foldl parseDiffStep ⟨[], [], [], none⟩

/-- `parseDiff` of `scripts/ai-unified-review.js` (lines 70–122; the older
unified variant carries a byte-identical copy). -/
def parseDiff (diff : List Char) : DiffResult :=
  if trimList diff = [] then ⟨[], [], []⟩
  else
    ⟨(parseDiffState diff).additions, (parseDiffState diff).deletions,
     (parseDiffState diff).files⟩

/-- A line eligible to become an addition record: starts with `+`, is not a
`+++` file marker, and its trimmed content is non-empty and short enough. -/
def addElig (l : List Char) : Bool :=
  isPlus l && !pppLit.isPrefixOf l && goodContent (cleanOf l)

end HuskyReview.Unified

namespace HuskyReview.Legacy

open HuskyReview.Unified (gitLit pppLit mmmLit)

/-! ### The category-section heuristic of the older unified variant -/

def sec1Lit : List Char := "1. syntax & build issues".toList

def sec2Lit : List Char := "2. security vulnerabilities".toList

def sec3Lit : List Char := "3. code style & standards".toList

/-- The `criticalSections` array of the older `checkForCriticalIssues`. -/
def criticalSections : List (List Char) := [sec1Lit, sec2Lit, sec3Lit]

/-- Locate a critical category heading in the lowercased review and extract
its window: the text after the heading up to the first `\d+\.` match, or the
first 500 characters when no such match exists. -/
def sectionWindow (reviewLower : List Char) (sec : List Char) : Option (List Char) :=
  match idxOfSub sec reviewLower with
  | none => none
  | some i =>
    let afterSection := reviewLower.drop (i + sec.length)
    match digitDotIdx afterSection with
    | some j => some (afterSection.take j)
    | none => some (afterSection.take 500)

/-- The "clean" phrases: a window containing one of them is treated as having
no issues in that category. -/
def cleanWindow (w : List Char) : Bool :=
  containsSub "none identified".toList w || containsSub "no issues".toList w ||
  containsSub "not found".toList w || containsSub "all good".toList w

/-- The "issue" indicators: bullet markers, a `\d+\.` match, or one of the
words `error`, `issue`, `problem`, `violation`. -/
def issueWindow (w : List Char) : Bool :=
  containsSub "- ".toList w || containsSub "• ".toList w || containsSub "* ".toList w ||
  (digitDotIdx w).isSome || containsSub "error".toList w || containsSub "issue".toList w ||
  containsSub "problem".toList w || containsSub "violation".toList w

/-- The `for (const section of criticalSections)` loop: a clean window
contributes nothing, an issue window returns `true` immediately, and a found
window with neither phrase kind also contributes nothing. -/
def checkSections (rl : List Char) : List (List Char) → Bool
  | [] => false
  | sec :: rest =>
    match sectionWindow rl sec with
    | none => checkSections rl rest
    | some w =>
      if cleanWindow w then checkSections rl rest
      else if issueWindow w then true
      else checkSections rl rest

/-- `checkForCriticalIssues` of the older unified variant (lines 231–274). -/
def checkForCriticalIssues (review : List Char) : Bool :=
  checkSections (toLowerList review) criticalSections

/-! ### `filterDiffForAddedLines` (lines 724–757) -/

def indexLit : List Char := "index ".toList

def atatLit : List Char := "@@".toList

/-- The header/hunk lines kept by the first branch of the filter. -/
def isHeaderLine (l : List Char) : Bool :=
  gitLit.isPrefixOf l || indexLit.isPrefixOf l || pppLit.isPrefixOf l ||
  mmmLit.isPrefixOf l || atatLit.isPrefixOf l

/-- The line loop of `filterDiffForAddedLines`, carrying the `inFileHeader`
flag exactly as the source does. -/
def filterLinesGo : Bool → List (List Char) → List (List Char)
  | _, [] => []
  | hdr, l :: ls =>
    if isHeaderLine l then l :: filterLinesGo true ls
    else if isPlus l then l :: filterLinesGo false ls
    else if isSpaceStart l && !hdr then l :: filterLinesGo hdr ls
    else if isMinus l && !mmmLit.isPrefixOf l then filterLinesGo hdr ls
    else l :: filterLinesGo hdr ls

/-- `filterDiffForAddedLines` of the older unified variant: rewrite the diff
keeping headers, additions and context while dropping `-` lines. -/
def filterDiffForAddedLines (diff : List Char) : List Char :=
  if diff = [] then diff
  else joinNl (filterLinesGo false (splitNl diff))

/-- A line the filter keeps: everything except a `-` line that is not a `---`
marker (proved below to coincide with the stateful loop). -/
def keepB (l : List Char) : Bool := !(isMinus l && !mmmLit.isPrefixOf l)

/-! ### The configuration table of `scripts/review-config.js` -/

structure ScoreThresholds where
  security : Nat
  quality : Nat
  overall : Nat
deriving DecidableEq

structure ReviewConfig where
  name : String
  model : String
  maxTokens : Nat
  temperature : ℚ
  focus : List String
  blocking : List String
  timeoutMs : Nat
  scoreThresholds : Option ScoreThresholds := none
deriving DecidableEq

def precommitConfig : ReviewConfig :=
  { name := "Pre-commit Critical Review", model := "gpt-4o-mini", maxTokens := 500,
    temperature := 1/10,
    focus := ["syntax_errors", "security_critical", "style_violations", "type_errors"],
    blocking := ["syntax_errors", "security_critical"], timeoutMs := 30000 }

def prepushConfig : ReviewConfig :=
  { name := "Pre-push Comprehensive Review", model := "gpt-4o", maxTokens := 1500,
    temperature := 3/10,
    focus := ["code_quality", "performance", "security", "testing", "documentation",
              "accessibility", "architecture", "best_practices"],
    blocking := ["security", "code_quality"], timeoutMs := 60000,
    scoreThresholds := some ⟨6, 5, 6⟩ }

def securityConfig : ReviewConfig :=
  { name := "Security-Focused Review", model := "gpt-4o", maxTokens := 800,
    temperature := 1/10,
    focus := ["security_vulnerabilities", "authentication", "authorization",
              "data_validation", "input_sanitization", "dependency_security"],
    blocking := ["security_vulnerabilities"], timeoutMs := 45000 }

def performanceConfig : ReviewConfig :=
  { name := "Performance Analysis", model := "gpt-4o", maxTokens := 800,
    temperature := 2/10,
    focus := ["algorithm_efficiency", "memory_usage", "database_optimization",
              "bundle_size", "rendering_optimization", "caching_strategies"],
    blocking := [], timeoutMs := 45000 }

def accessibilityConfig : ReviewConfig :=
  { name := "Accessibility Review", model := "gpt-4o", maxTokens := 600,
    temperature := 2/10,
    focus := ["wcag_compliance", "screen_reader", "keyboard_navigation",
              "color_contrast", "aria_labels", "semantic_html"],
    blocking := [], timeoutMs := 45000 }

def testingConfig : ReviewConfig :=
  { name := "Testing Quality Review", model := "gpt-4o", maxTokens := 700,
    temperature := 2/10,
    focus := ["test_coverage", "test_quality", "edge_cases", "mock_usage",
              "integration_tests", "error_handling"],
    blocking := [], timeoutMs := 45000 }

def documentationConfig : ReviewConfig :=
  { name := "Documentation Review", model := "gpt-4o", maxTokens := 600,
    temperature := 3/10,
    focus := ["code_comments", "api_documentation", "readme_updates",
              "inline_docs", "examples", "changelog"],
    blocking := [], timeoutMs := 30000 }

/-- The `reviewTypes` table keyed by profile name. -/
def reviewTypes : List (String × ReviewConfig) :=
  [("precommit", precommitConfig), ("prepush", prepushConfig),
   ("security", securityConfig), ("performance", performanceConfig),
   ("accessibility", accessibilityConfig), ("testing", testingConfig),
   ("documentation", documentationConfig)]

/-- `reviewTypes[reviewType]`. -/
def lookupConfig (rt : String) : Option ReviewConfig :=
  (reviewTypes.find? (fun p => p.1 == rt)).map (·.2)

/-! ### The error path of `performReview` (lines 674–690) and `main` -/

/-- The `success` field of the value returned from `performReview`'s `catch`
block: `shouldBlock = config.blocking.length > 0 && reviewType === 'precommit'`
and the result is `{ success: !shouldBlock, ... }`. -/
def performReviewErrorSuccess (reviewType : String) (config : ReviewConfig) : Bool :=
  !(decide (0 < config.blocking.length) && (reviewType == "precommit"))

/-- The early-exit phase of the older unified variant's `main` (lines
759–803): `some c` means the process exits with code `c` before any remote
evaluation call is made; `none` means it proceeds to `performReview`.
`diff` is `getDiff`'s result (`none` models its `null`). -/
def mainEarly (reviewType : String) (hasKey : Bool) (diff : Option (List Char))
    (changedFiles : List String) : Option Nat :=
  match lookupConfig reviewType with
  | none => some 1
  | some _ =>
    if !hasKey then some (if reviewType == "precommit" then 0 else 1)
    else
      match diff with
      | none => some (if reviewType == "precommit" then 1 else 0)
      | some d =>
        if trimList d = [] then some (if reviewType == "precommit" then 1 else 0)
        else if changedFiles = [] then some (if reviewType == "precommit" then 1 else 0)
        else none

end HuskyReview.Legacy

namespace HuskyReview.Precommit

/-- The value returned from `quickReviewCode`'s `catch` block in
`scripts/ai-precommit-review.js` (lines 139–150): API errors never block the
commit. -/
structure QuickResult where
  success : Bool
  error : Option String := none

def quickReviewCatch (errMsg : String) : QuickResult :=
  { success := true, error := some errMsg }

/-- The early-exit phase of the fast-path `main` (lines 174–191): a missing
key or an empty staged diff exits with code 0 before any remote call. -/
def mainEarly (hasKey : Bool) (diff : Option (List Char)) : Option Nat :=
  if !hasKey then some 0
  else
    match diff with
    | none => some 0
    | some d => if trimList d = [] then some 0 else none

end HuskyReview.Precommit

namespace HuskyReview.CodeReview

/-- The four values of the `**OVERALL ASSESSMENT:**` alternation. -/
inductive Assessment where
  | excellent
  | good
  | needsImprovement
  | criticalIssues
deriving DecidableEq

/-- `\*\*${category}:\*\*` — the literal heading part of `extractScore`'s
regex, built from the category name. -/
def categoryLit (cat : List Char) : List Char :=
  "**".toList ++ cat ++ ":**".toList

def scoreOpenLit : List Char := "[score:".toList

def scoreCloseLit : List Char := "/10]".toList

/-- Try to match `\*\*CAT:\*\*\s*\[Score:\s*(\d+)/10\]` (case-insensitively:
both `s` and `catLit` are already lowercased) at the start of `s`, returning
`parseInt(match[1])`. -/
def scoreAt (catLit s : List Char) : Option Nat :=
  if catLit.isPrefixOf s then
    let r1 := dropWS (s.drop catLit.length)
    if scoreOpenLit.isPrefixOf r1 then
      let r2 := dropWS (r1.drop scoreOpenLit.length)
      let ds := r2.takeWhile Char.isDigit
      if !ds.isEmpty && scoreCloseLit.isPrefixOf (r2.drop ds.length) then
        some (digitsToNat ds)
      else none
    else none
  else none

/-- The regex engine's left-to-right scan for the first full match. -/
def findScoreFrom (catLit : List Char) : List Char → Option Nat
  | [] => none
  | s@(_ :: t) =>
    match scoreAt catLit s with
    | some n => some n
    | none => findScoreFrom catLit t

/-- `extractScore` of `scripts/ai-code-review.js` (lines 32–36): the labeled
score, defaulting to 7 when the label is not found. -/
def extractScore (review cat : List Char) : Nat :=
  (findScoreFrom (toLowerList (categoryLit cat)) (toLowerList review)).getD 7

def oaLit : List Char := "**overall assessment:**".toList

/-- Try to match
`\*\*OVERALL ASSESSMENT:\*\*\s*(EXCELLENT|GOOD|NEEDS_IMPROVEMENT|CRITICAL_ISSUES)`
at the start of the (lowercased) text. -/
def assessAt (s : List Char) : Option Assessment :=
  if oaLit.isPrefixOf s then
    let r := dropWS (s.drop oaLit.length)
    if "excellent".toList.isPrefixOf r then some Assessment.excellent
    else if "good".toList.isPrefixOf r then some Assessment.good
    else if "needs_improvement".toList.isPrefixOf r then some Assessment.needsImprovement
    else if "critical_issues".toList.isPrefixOf r then some Assessment.criticalIssues
    else none
  else none

def findAssess : List Char → Option Assessment
  | [] => none
  | s@(_ :: t) =>
    match assessAt s with
    | some a => some a
    | none => findAssess t

/-- The parsed overall assessment, defaulting to `NEEDS_IMPROVEMENT`. -/
def extractAssessment (review : List Char) : Assessment :=
  (findAssess (toLowerList review)).getD Assessment.needsImprovement

/-- The six labeled category scores parsed by `reviewCode`. -/
structure Scores where
  quality : Nat
  performance : Nat
  security : Nat
  testing : Nat
  documentation : Nat
  react : Nat
deriving DecidableEq

def extractScores (review : List Char) : Scores :=
  { quality := extractScore review "CODE QUALITY".toList,
    performance := extractScore review "PERFORMANCE".toList,
    security := extractScore review "SECURITY".toList,
    testing := extractScore review "TESTING".toList,
    documentation := extractScore review "DOCUMENTATION".toList,
    react := extractScore review "REACT/FRONTEND".toList }

/-- `overallScore = Object.values(scores).reduce((a,b) => a+b, 0) / 6`, the
arithmetic mean over exactly the six categories (exact rational value of the
floating-point division, which is exact for these magnitudes). -/
def overallScore (s : Scores) : ℚ :=
  ((s.quality + s.performance + s.security + s.testing + s.documentation + s.react : Nat) : ℚ) / 6

/-- The `shouldBlock` condition of `reviewCode` (lines 201–221):
`assessment === 'CRITICAL_ISSUES' || scores.security < 6 || scores.quality < 5 || overallScore < 6`. -/
def shouldBlock (review : List Char) : Bool :=
  decide (extractAssessment review = Assessment.criticalIssues) ||
  decide ((extractScores review).security < 6) ||
  decide ((extractScores review).quality < 5) ||
  decide (overallScore (extractScores review) < 6)

/-- The early-exit phase of `scripts/ai-code-review.js`'s `main` (lines
286–299): a missing key exits 1 before any review; a `null` or empty diff
exits 0. -/
def mainEarly (hasKey : Bool) (diff : Option (List Char)) : Option Nat :=
  if !hasKey then some 1
  else
    match diff with
    | none => some 0
    | some d => if d = [] then some 0 else none

end HuskyReview.CodeReview

namespace HuskyReview.UnifiedNew

open HuskyReview.Unified (parseDiff)

/-- The early-exit phase of `scripts/ai-unified-review.js`'s `main` (lines
278–316): a missing key exits 1; an empty diff, or a diff with no addition
and no deletion records, exits 0 — all before any remote call. -/
def mainEarly (hasKey : Bool) (diffToAnalyze : List Char) : Option Nat :=
  if !hasKey then some 1
  else if trimList diffToAnalyze = [] then some 0
  else if (parseDiff diffToAnalyze).additions = [] ∧ (parseDiff diffToAnalyze).deletions = [] then
    some 0
  else none

end HuskyReview.UnifiedNew

namespace HuskyReview

/-! ### Concrete inputs used by the claims -/

/-- A response containing both status tokens: the regex scan stops at the
first one. -/
def c1text : List Char := "APPROVAL_STATUS: 1\nAPPROVAL_STATUS: 0".toList

/-- A review whose three critical sections all read "None identified". -/
def c2ex1 : List Char :=
  ("1. Syntax & Build Issues\nNone identified\n2. Security Vulnerabilities\n" ++
   "None identified\n3. Code Style & Standards\nNone identified\n").toList

/-- A review whose security section reports a hardcoded API key. -/
def c2ex2 : List Char :=
  ("1. Syntax & Build Issues\nNone identified\n2. Security Vulnerabilities\n" ++
   "- hardcoded API key found\n3. Code Style & Standards\nNone identified\n").toList

def c2rl : List Char := "1. syntax & build issues\nnone identified\n".toList

def c2w : List Char := "\nnone identified\n".toList

/-- A review with no score labels and an overall assessment of GOOD. -/
def c3ex1 : List Char := "**OVERALL ASSESSMENT:** GOOD\nLooks fine.".toList

/-- A review with a security score of 4 and no other labels. -/
def c3ex2 : List Char :=
  "**OVERALL ASSESSMENT:** GOOD\n**SECURITY:** [Score: 4/10]".toList

/-- A diff of 51 distinct addition lines `+x0 … +x50`: one more than the
per-kind cap of `parseDiff`. -/
def c6diff : List Char :=
  joinNl ((List.range 51).map (fun i => '+' :: 'x' :: Nat.toDigits 10 i))

/-- The 51st addition line of `c6diff`. -/
def c6line : List Char := '+' :: 'x' :: Nat.toDigits 10 50

/-- Follows the spec's words for the strategy-agreement check: strategy 2's
surviving `+`-prefixed lines with the leading marker stripped (to be compared
with strategy 1's addition-record contents). -/
def strat2Added (D : List Char) : List (List Char) :=
  ((splitNl (Legacy.filterDiffForAddedLines D)).filter isPlus).map (List.drop 1)

/-- A one-line diff whose addition carries leading whitespace after the
marker. -/
def c7diff : List Char := "+ a".toList

/-- A minimal one-addition diff. -/
def c6small : List Char := "+a".toList

/-! ### Helper lemmas about the regex scan -/

theorem approvalAt_zero (s : List Char) :
    Unified.approvalAt s 0 = Unified.approvalTail s := rfl

theorem approvalAt_succ (c : Char) (t : List Char) (i : Nat) :
    Unified.approvalAt (c :: t) (i + 1) = Unified.approvalAt t i := rfl

/-- The left-to-right scan returns `some d` exactly when some position
matches with digit `d` and every earlier position fails to match. -/
theorem findApproval_some_iff (s : List Char) (d : Char) :
    Unified.findApproval s = some d ↔
      ∃ i, Unified.approvalAt s i = some d ∧
        ∀ j, j < i → Unified.approvalAt s j = none := by
  induction s with
  | nil =>
    simp only [Unified.findApproval]
    constructor
    · intro h; exact absurd h (by simp)
    · rintro ⟨i, hi, -⟩
      rw [Unified.approvalAt, List.drop_nil] at hi
      have hnone : Unified.approvalTail [] = none := rfl
      rw [hnone] at hi
      exact absurd hi (by simp)
  | cons c t ih =>
    cases h : Unified.approvalTail (c :: t) with
    | some d0 =>
      simp only [Unified.findApproval, h]
      constructor
      · intro hd
        refine ⟨0, ?_, fun j hj => absurd hj (Nat.not_lt_zero j)⟩
        rw [approvalAt_zero, h, hd]
      · rintro ⟨i, hi, hmin⟩
        cases i with
        | zero => rw [approvalAt_zero, h] at hi; exact hi.symm ▸ rfl
        | succ k =>
          have h0 := hmin 0 (Nat.succ_pos k)
          rw [approvalAt_zero, h] at h0
          exact absurd h0 (by simp)
    | none =>
      simp only [Unified.findApproval, h]
      rw [ih]
      constructor
      · rintro ⟨i, hi, hmin⟩
        refine ⟨i + 1, by rwa [approvalAt_succ], fun j hj => ?_⟩
        cases j with
        | zero => rw [approvalAt_zero]; exact h
        | succ k => rw [approvalAt_succ]; exact hmin k (Nat.lt_of_succ_lt_succ hj)
      · rintro ⟨i, hi, hmin⟩
        cases i with
        | zero => rw [approvalAt_zero, h] at hi; exact absurd hi (by simp)
        | succ k =>
          rw [approvalAt_succ] at hi
          exact ⟨k, hi, fun j hj =>
            by have := hmin (j + 1) (Nat.succ_lt_succ hj); rwa [approvalAt_succ] at this⟩

/-! ### Helper lemmas about line shapes -/

/-- A list with a cons-shaped boolean-prefix starts with that head. -/
theorem head_of_cons_isPrefixOf {c : Char} {p l : List Char}
    (h : (c :: p).isPrefixOf l = true) : ∃ t, l = c :: t := by
  obtain ⟨t, rfl⟩ := List.isPrefixOf_iff_prefix.mp h
  exact ⟨p ++ t, rfl⟩

theorem isPlus_head {c : Char} {t : List Char} :
    isPlus (c :: t) = (c == '+') := rfl

theorem isMinus_head {c : Char} {t : List Char} :
    isMinus (c :: t) = (c == '-') := rfl

theorem isPlus_false_of_git {l : List Char}
    (h : Unified.gitLit.isPrefixOf l = true) : isPlus l = false := by
  have hg : Unified.gitLit = 'd' :: "iff --git".toList := rfl
  rw [hg] at h
  obtain ⟨t, rfl⟩ := head_of_cons_isPrefixOf h
  rfl

theorem isMinus_false_of_plus {l : List Char}
    (h : isPlus l = true) : isMinus l = false := by
  cases l with
  | nil => exact absurd h (by simp [isPlus])
  | cons c t =>
    rw [isPlus_head] at h
    rw [isMinus_head]
    have : c = '+' := by simpa using h
    subst this
    rfl

theorem isPlus_false_of_minus {l : List Char}
    (h : isMinus l = true) : isPlus l = false := by
  cases l with
  | nil => exact absurd h (by simp [isMinus])
  | cons c t =>
    rw [isMinus_head] at h
    rw [isPlus_head]
    have : c = '-' := by simpa using h
    subst this
    rfl

/-- `goodContent` spelled out as a proposition. -/
theorem goodContent_iff (c : List Char) :
    Unified.goodContent c = true ↔ c ≠ [] ∧ c.length < 200 := by
  simp [Unified.goodContent, List.isEmpty_iff]

/-! ### Helper lemmas about `parseDiff` -/

/-- The effect of one `parseDiff` loop iteration on the additions list. -/
theorem parseDiffStep_additions (st : Unified.ParseState) (l : List Char) :
    (Unified.parseDiffStep st l).additions =
      if Unified.addElig l = true ∧ st.additions.length < 50 then
        st.additions ++ [⟨st.currentFile, Unified.cleanOf l, Unified.ChangeKind.addition⟩]
      else st.additions := by
  unfold Unified.parseDiffStep
  by_cases h1 : Unified.gitLit.isPrefixOf l = true
  · have hp : isPlus l = false := isPlus_false_of_git h1
    have he : Unified.addElig l = false := by simp [Unified.addElig, hp]
    rw [if_pos h1, if_neg (fun hc => by simp [he] at hc)]
    cases Unified.gitHeaderFile l <;> rfl
  · rw [if_neg h1]
    by_cases h2 :
        (isPlus l && !Unified.pppLit.isPrefixOf l &&
          decide (st.additions.length < 50)) = true
    · rw [if_pos h2]
      have h2' := h2
      simp only [Bool.and_eq_true, decide_eq_true_eq] at h2'
      obtain ⟨⟨hpl, hpp⟩, hlen⟩ := h2'
      by_cases h4 : Unified.goodContent (Unified.cleanOf l) = true
      · have he : Unified.addElig l = true := by
          simp [Unified.addElig, hpl, hpp, h4]
        rw [if_pos h4, if_pos ⟨he, hlen⟩]
      · have he : Unified.addElig l = false := by
          simp [Unified.addElig, Bool.eq_false_iff.mpr h4]
        rw [if_neg h4, if_neg (fun hc => by simp [he] at hc)]
    · have hcond : ¬ (Unified.addElig l = true ∧ st.additions.length < 50) := by
        rintro ⟨ha, hl⟩
        apply h2
        simp only [Unified.addElig, Bool.and_eq_true] at ha
        simp [ha.1.1, ha.1.2, hl]
      rw [if_neg hcond, if_neg h2]
      split
      · split <;> rfl
      · rfl

/-- The deletions list never grows past the cap. -/
theorem parseDiffStep_deletions_le (st : Unified.ParseState) (l : List Char)
    (h : st.deletions.length ≤ 50) :
    (Unified.parseDiffStep st l).deletions.length ≤ 50 := by
  unfold Unified.parseDiffStep
  split
  · split <;> simpa using h
  · split
    · split <;> simpa using h
    · split
      · rename_i hc
        simp only [Bool.and_eq_true, decide_eq_true_eq] at hc
        split
        · simpa using Nat.succ_le_of_lt hc.2
        · simpa using h
      · simpa using h

/-- The additions list never grows past the cap. -/
theorem parseDiffStep_additions_le (st : Unified.ParseState) (l : List Char)
    (h : st.additions.length ≤ 50) :
    (Unified.parseDiffStep st l).additions.length ≤ 50 := by
  rw [parseDiffStep_additions]
  split
  · rename_i hc
    simpa using Nat.succ_le_of_lt hc.2
  · exact h

/-- A fold preserves any invariant its step preserves. -/
theorem foldl_preserve {σ : Type} {α : Type} (f : σ → α → σ) (P : σ → Prop)
    (h : ∀ s a, P s → P (f s a)) :
    ∀ (l : List α) (s : σ), P s → P (l.foldl f s)
  | [], _, hs => hs
  | a :: l, s, hs => foldl_preserve f P h l (f s a) (h s a hs)

/-- The contents of the addition records produced by the loop: the first
`50 - (already collected)` eligible lines, trimmed, in order. -/
theorem foldl_additions_line (ls : List (List Char)) :
    ∀ st : Unified.ParseState,
      ((ls.foldl Unified.parseDiffStep st).additions).map Unified.ChangeRecord.line =
        st.additions.map Unified.ChangeRecord.line ++
          ((ls.filter Unified.addElig).map Unified.cleanOf).take
            (50 - st.additions.length) := by
  induction ls with
  | nil => intro st; simp
  | cons l ls ih =>
    intro st
    rw [List.foldl_cons, ih (Unified.parseDiffStep st l)]
    rw [parseDiffStep_additions]
    by_cases hE : Unified.addElig l = true
    · by_cases hk : st.additions.length < 50
      · rw [if_pos ⟨hE, hk⟩]
        rw [List.filter_cons_of_pos hE]
        have harith : 50 - st.additions.length = (50 - (st.additions.length + 1)) + 1 := by
          omega
        simp only [List.map_cons, List.map_append, List.length_append, List.length_cons,
          List.length_nil, List.map_nil, harith, List.take_succ_cons]
        simp
      · rw [if_neg (fun hc => hk hc.2)]
        have h0 : 50 - st.additions.length = 0 := by omega
        rw [List.filter_cons_of_pos hE, h0]
        simp
    · have hE' : Unified.addElig l = false := Bool.eq_false_iff.mpr hE
      rw [if_neg (fun hc => hE hc.1), List.filter_cons_of_neg (by simp [hE'])]

/-- The addition-record contents of `parseDiff` on a non-blank diff. -/
theorem parseDiff_additions_line (D : List Char) (h : trimList D ≠ []) :
    (Unified.parseDiff D).additions.map Unified.ChangeRecord.line =
      (((splitNl D).filter Unified.addElig).map Unified.cleanOf).take 50 := by
  unfold Unified.parseDiff
  rw [if_neg h]
  show (Unified.parseDiffState D).additions.map Unified.ChangeRecord.line = _
  unfold Unified.parseDiffState
  rw [foldl_additions_line]
  simp

/-! ### Helper lemmas about line splitting and joining -/

theorem splitNl_ne_nil (s : List Char) : splitNl s ≠ [] := by
  induction s with
  | nil => simp [splitNl]
  | cons c t ih =>
    unfold splitNl
    split
    · simp
    · cases h : splitNl t with
      | nil => simp
      | cons a r => simp

theorem not_nl_mem_splitNl (s : List Char) : ∀ l ∈ splitNl s, '\n' ∉ l := by
  induction s with
  | nil =>
    intro l hl
    simp [splitNl] at hl
    simp [hl]
  | cons c t ih =>
    intro l hl
    unfold splitNl at hl
    by_cases hc : c = '\n'
    · rw [if_pos hc] at hl
      rcases List.mem_cons.mp hl with h | h
      · simp [h]
      · exact ih l h
    · rw [if_neg hc] at hl
      cases hsp : splitNl t with
      | nil => exact absurd hsp (splitNl_ne_nil t)
      | cons a r =>
        rw [hsp] at hl
        rcases List.mem_cons.mp hl with h | h
        · subst h
          intro hmem
          rcases List.mem_cons.mp hmem with h | h
          · exact hc h.symm
          · exact ih a (hsp ▸ List.mem_cons_self a r) h
        · exact ih l (hsp ▸ List.mem_cons_of_mem a h)

theorem splitNl_of_no_nl (l : List Char) (h : '\n' ∉ l) : splitNl l = [l] := by
  induction l with
  | nil => rfl
  | cons c t ih =>
    have hc : ¬ c = '\n' := fun hx => h (hx ▸ List.mem_cons_self c t)
    unfold splitNl
    rw [if_neg hc, ih (fun hm => h (List.mem_cons_of_mem c hm))]

theorem splitNl_append_nl (l rest : List Char) (h : '\n' ∉ l) :
    splitNl (l ++ '\n' :: rest) = l :: splitNl rest := by
  induction l with
  | nil => simp [splitNl]
  | cons c t ih =>
    have hc : ¬ c = '\n' := fun hx => h (hx ▸ List.mem_cons_self c t)
    have ih' := ih (fun hm => h (List.mem_cons_of_mem c hm))
    show splitNl (c :: (t ++ '\n' :: rest)) = (c :: t) :: splitNl rest
    conv_lhs => rw [splitNl]
    rw [if_neg hc, ih']

theorem splitNl_joinNl (ls : List (List Char)) (h1 : ls ≠ [])
    (h2 : ∀ l ∈ ls, '\n' ∉ l) : splitNl (joinNl ls) = ls := by
  induction ls with
  | nil => exact absurd rfl h1
  | cons l ls ih =>
    cases ls with
    | nil =>
      exact splitNl_of_no_nl l (h2 l (List.mem_cons_self l []))
    | cons l2 ls2 =>
      show splitNl (l ++ '\n' :: joinNl (l2 :: ls2)) = l :: l2 :: ls2
      rw [splitNl_append_nl l _ (h2 l (List.mem_cons_self l _))]
      rw [ih (List.cons_ne_nil l2 ls2) (fun x hx => h2 x (List.mem_cons_of_mem l hx))]

/-! ### Helper lemmas about `filterDiffForAddedLines` -/

theorem keepB_of_isPlus {l : List Char} (h : isPlus l = true) :
    Legacy.keepB l = true := by
  simp [Legacy.keepB, isMinus_false_of_plus h]

theorem keepB_of_not_minus {l : List Char} (h : isMinus l = false) :
    Legacy.keepB l = true := by
  simp [Legacy.keepB, h]

theorem keepB_of_header {l : List Char} (h : Legacy.isHeaderLine l = true) :
    Legacy.keepB l = true := by
  simp only [Legacy.isHeaderLine, Bool.or_eq_true] at h
  rcases h with ((((h | h) | h) | h) | h)
  · exact keepB_of_not_minus (by
      have hg : Unified.gitLit = 'd' :: "iff --git".toList := rfl
      rw [hg] at h
      obtain ⟨t, rfl⟩ := head_of_cons_isPrefixOf h
      rfl)
  · exact keepB_of_not_minus (by
      have hg : Legacy.indexLit = 'i' :: "ndex ".toList := rfl
      rw [hg] at h
      obtain ⟨t, rfl⟩ := head_of_cons_isPrefixOf h
      rfl)
  · exact keepB_of_not_minus (by
      have hg : Unified.pppLit = '+' :: "++".toList := rfl
      rw [hg] at h
      obtain ⟨t, rfl⟩ := head_of_cons_isPrefixOf h
      rfl)
  · simp [Legacy.keepB, h]
  · exact keepB_of_not_minus (by
      have hg : Legacy.atatLit = '@' :: "@".toList := rfl
      rw [hg] at h
      obtain ⟨t, rfl⟩ := head_of_cons_isPrefixOf h
      rfl)

theorem keepB_of_space {l : List Char} (h : isSpaceStart l = true) :
    Legacy.keepB l = true := by
  apply keepB_of_not_minus
  cases l with
  | nil => exact absurd h (by simp [isSpaceStart])
  | cons c t =>
    have : c = ' ' := by simpa [isSpaceStart] using h
    subst this
    rfl

/-- The stateful keep/drop loop is a plain filter: only `-` lines that are
not `---` markers are dropped, whatever the `inFileHeader` flag. -/
theorem filterLinesGo_eq (ls : List (List Char)) :
    ∀ hdr : Bool, Legacy.filterLinesGo hdr ls = ls.filter Legacy.keepB := by
  induction ls with
  | nil => intro hdr; rfl
  | cons l ls ih =>
    intro hdr
    unfold Legacy.filterLinesGo
    by_cases hH : Legacy.isHeaderLine l = true
    · rw [if_pos hH, ih, List.filter_cons_of_pos (keepB_of_header hH)]
    · rw [if_neg hH]
      by_cases hP : isPlus l = true
      · rw [if_pos hP, ih, List.filter_cons_of_pos (keepB_of_isPlus hP)]
      · rw [if_neg hP]
        by_cases hS : (isSpaceStart l && !hdr) = true
        · rw [if_pos hS, ih,
            List.filter_cons_of_pos (keepB_of_space (Bool.and_eq_true .. |>.mp hS).1)]
        · rw [if_neg hS]
          by_cases hM : (isMinus l && !Unified.mmmLit.isPrefixOf l) = true
          · rw [if_pos hM, ih,
              List.filter_cons_of_neg (by simp [Legacy.keepB, hM])]
          · rw [if_neg hM, ih,
              List.filter_cons_of_pos (by simp [Legacy.keepB, Bool.eq_false_iff.mpr hM])]

/-- `filterDiffForAddedLines` on a non-empty diff, as split/filter/join. -/
theorem filterDiff_eq (D : List Char) (hD : D ≠ []) :
    Legacy.filterDiffForAddedLines D = joinNl ((splitNl D).filter Legacy.keepB) := by
  unfold Legacy.filterDiffForAddedLines
  rw [if_neg hD, filterLinesGo_eq]

/-! ## Claim C1 -/

/-- C1 fails as stated: this response text contains the token
`APPROVAL_STATUS: 0`, yet `checkForCriticalIssues` returns `blocked = false`
because an earlier `APPROVAL_STATUS: 1` wins the regex scan. -/
theorem claim1_counterexample :
    containsSub "APPROVAL_STATUS: 0".toList c1text = true ∧
    Unified.checkForCriticalIssues c1text = false := by
  constructor
  · decide
  · decide

theorem claim1_check_true_iff (s : List Char) :
    Unified.checkForCriticalIssues s = true ↔ Unified.findApproval s = some '0' := by
  unfold Unified.checkForCriticalIssues
  cases h : Unified.findApproval s with
  | none => simp
  | some d => simp [beq_iff_eq]

/-- C1 (amended): the decision follows the first occurrence of the pattern
`APPROVAL_STATUS:\s*([01])` in the response text — blocked iff the first
matching position captures the digit 0; a text with no match anywhere is not
blocked (the permissive default, with a diagnostic logged). -/
theorem claim1_theorem (s : List Char) :
    (Unified.checkForCriticalIssues s = true ↔
      ∃ i, Unified.approvalAt s i = some '0' ∧
        ∀ j, j < i → Unified.approvalAt s j = none) ∧
    ((∀ i, Unified.approvalAt s i = none) → Unified.checkForCriticalIssues s = false) := by
  constructor
  · rw [claim1_check_true_iff]
    exact findApproval_some_iff s '0'
  · intro hall
    cases hb : Unified.checkForCriticalIssues s with
    | false => rfl
    | true =>
      obtain ⟨i, hi, -⟩ :=
        (findApproval_some_iff s '0').mp ((claim1_check_true_iff s).mp hb)
      rw [hall i] at hi
      exact absurd hi (by simp)

/-- Witness for C1: on a text with no approval token the extractor does not
block. -/
theorem claim1_witness : Unified.checkForCriticalIssues [] = false :=
  (claim1_theorem []).2 (fun i => by
    simp only [Unified.approvalAt, List.drop_nil]
    rfl)

/-! ## Claim C2 -/

/-- C2: the category-section heuristic examines the three critical headings
in order in the lowercased text; a found window containing a clean phrase
contributes no block, a found window with an issue indicator (and no clean
phrase) blocks immediately, a missing heading contributes nothing; the two
concrete sections of the claim behave as stated. -/
theorem claim2_theorem :
    (∀ rl sec rest w, Legacy.sectionWindow rl sec = some w →
        Legacy.cleanWindow w = true →
        Legacy.checkSections rl (sec :: rest) = Legacy.checkSections rl rest) ∧
    (∀ rl sec rest w, Legacy.sectionWindow rl sec = some w →
        Legacy.cleanWindow w = false → Legacy.issueWindow w = true →
        Legacy.checkSections rl (sec :: rest) = true) ∧
    (∀ rl sec rest, Legacy.sectionWindow rl sec = none →
        Legacy.checkSections rl (sec :: rest) = Legacy.checkSections rl rest) ∧
    Legacy.checkForCriticalIssues c2ex1 = false ∧
    Legacy.checkForCriticalIssues c2ex2 = true := by
  refine ⟨?_, ?_, ?_, by decide, by decide⟩
  · intro rl sec rest w h hc
    simp [Legacy.checkSections, h, hc]
  · intro rl sec rest w h hc hi
    simp [Legacy.checkSections, h, hc, hi]
  · intro rl sec rest h
    simp [Legacy.checkSections, h]

/-- Witness for C2: a concrete clean window contributes no block. -/
theorem claim2_witness :
    Legacy.sectionWindow c2rl Legacy.sec1Lit = some c2w ∧
    Legacy.cleanWindow c2w = true ∧
    Legacy.checkSections c2rl [Legacy.sec1Lit] = Legacy.checkSections c2rl [] :=
  ⟨by decide, by decide,
   claim2_theorem.1 c2rl Legacy.sec1Lit [] c2w (by decide) (by decide)⟩

/-! ## Claim C3 -/

/-- C3: `reviewCode` blocks iff the overall assessment is CRITICAL_ISSUES,
or security < 6, or quality < 5, or the six-category mean < 6; six defaulted
scores with assessment GOOD give mean 7 and no block, while security = 4 with
the rest defaulted blocks. -/
theorem claim3_theorem :
    (∀ r, CodeReview.shouldBlock r = true ↔
        (CodeReview.extractAssessment r = CodeReview.Assessment.criticalIssues ∨
         (CodeReview.extractScores r).security < 6 ∨
         (CodeReview.extractScores r).quality < 5 ∨
         CodeReview.overallScore (CodeReview.extractScores r) < 6)) ∧
    (CodeReview.extractScores c3ex1 = ⟨7, 7, 7, 7, 7, 7⟩ ∧
     CodeReview.extractAssessment c3ex1 = CodeReview.Assessment.good ∧
     CodeReview.overallScore (CodeReview.extractScores c3ex1) = 7 ∧
     CodeReview.shouldBlock c3ex1 = false) ∧
    ((CodeReview.extractScores c3ex2).security = 4 ∧
     CodeReview.shouldBlock c3ex2 = true) := by
  have hs1 : CodeReview.extractScores c3ex1 = ⟨7, 7, 7, 7, 7, 7⟩ := by decide
  have hs2 : CodeReview.extractScores c3ex2 = ⟨7, 7, 4, 7, 7, 7⟩ := by decide
  have ha1 : CodeReview.extractAssessment c3ex1 = CodeReview.Assessment.good := by decide
  have ho : CodeReview.overallScore ⟨7, 7, 7, 7, 7, 7⟩ = 7 := by
    unfold CodeReview.overallScore
    norm_num
  have hlt : ¬ CodeReview.overallScore ⟨7, 7, 7, 7, 7, 7⟩ < 6 := by
    rw [ho]; norm_num
  refine ⟨?_, ⟨hs1, ha1, by rw [hs1, ho], ?_⟩, ⟨by rw [hs2], ?_⟩⟩
  · intro r
    unfold CodeReview.shouldBlock
    simp only [Bool.or_eq_true, decide_eq_true_eq]
    tauto
  · unfold CodeReview.shouldBlock
    rw [hs1, ha1]
    simp [hlt]
  · unfold CodeReview.shouldBlock
    rw [hs2]
    simp

/-! ## Claim C4 -/

/-- C4 fails as stated: the precommit profile's blocking set is non-empty,
and on a failed remote call the legacy `performReview` returns
`success = false` for it — the error blocks the commit rather than failing
open. -/
theorem claim4_counterexample :
    Legacy.precommitConfig.blocking ≠ [] ∧
    Legacy.performReviewErrorSuccess "precommit" Legacy.precommitConfig = false := by
  constructor
  · decide
  · decide

/-- C4 (amended): when the remote evaluation call fails, the legacy unified
pipeline's decision is "not blocked" for every review kind and profile
except a precommit invocation whose profile has a non-empty blocking set,
which blocks (fail-closed); the precommit fast-path variant never blocks on
an error. -/
theorem claim4_theorem :
    (∀ (rt : String) (cfg : Legacy.ReviewConfig),
        Legacy.performReviewErrorSuccess rt cfg = false ↔
          (cfg.blocking ≠ [] ∧ rt = "precommit")) ∧
    (∀ e : String, (Precommit.quickReviewCatch e).success = true) := by
  refine ⟨?_, fun e => rfl⟩
  intro rt cfg
  unfold Legacy.performReviewErrorSuccess
  simp [List.length_pos]

/-! ## Claim C5 -/

/-- C5: `parseDiff` returns at most 50 addition records and at most 50
deletion records, regardless of how many addition or deletion lines the diff
contains. -/
theorem claim5_theorem (D : List Char) :
    (Unified.parseDiff D).additions.length ≤ 50 ∧
    (Unified.parseDiff D).deletions.length ≤ 50 := by
  unfold Unified.parseDiff
  split
  · simp
  · constructor
    · show (Unified.parseDiffState D).additions.length ≤ 50
      exact foldl_preserve Unified.parseDiffStep (fun st => st.additions.length ≤ 50)
        parseDiffStep_additions_le (splitNl D) ⟨[], [], [], none⟩ (by simp)
    · show (Unified.parseDiffState D).deletions.length ≤ 50
      exact foldl_preserve Unified.parseDiffStep (fun st => st.deletions.length ≤ 50)
        parseDiffStep_deletions_le (splitNl D) ⟨[], [], [], none⟩ (by simp)

/-! ## Claim C6 -/

/-- C6 fails as stated: in a diff with 51 eligible addition lines, the 51st
line `+x50` starts with `+`, is not a `+++` marker, and its trimmed content
`x50` is non-empty and shorter than 200 characters, yet it does not appear in
the addition records because the per-kind cap of 50 was already reached. -/
theorem claim6_counterexample :
    c6line ∈ splitNl c6diff ∧ isPlus c6line = true ∧
    Unified.pppLit.isPrefixOf c6line = false ∧
    Unified.cleanOf c6line ≠ [] ∧ (Unified.cleanOf c6line).length < 200 ∧
    Unified.cleanOf c6line ∉
      (Unified.parseDiff c6diff).additions.map Unified.ChangeRecord.line := by
  refine ⟨by decide, by decide, by decide, by decide, by decide, by decide⟩

/-- C6 (amended): provided the diff has at most 50 addition-eligible lines
(so the cap does not truncate), a `+` line that is not a `+++` marker
contributes its content to the addition records iff its trimmed remainder is
non-empty and shorter than 200 characters. -/
theorem claim6_theorem (D L : List Char) (hmem : L ∈ splitNl D)
    (hplus : isPlus L = true) (hppp : Unified.pppLit.isPrefixOf L = false)
    (hcap : ((splitNl D).filter Unified.addElig).length ≤ 50)
    (hne : trimList D ≠ []) :
    Unified.cleanOf L ∈ (Unified.parseDiff D).additions.map Unified.ChangeRecord.line ↔
      (Unified.cleanOf L ≠ [] ∧ (Unified.cleanOf L).length < 200) := by
  rw [parseDiff_additions_line D hne,
    List.take_of_length_le (by simpa using hcap)]
  constructor
  · intro hm
    obtain ⟨L', hL', hEq⟩ := List.mem_map.mp hm
    have hE := (List.mem_filter.mp hL').2
    simp only [Unified.addElig, Bool.and_eq_true] at hE
    have hg := hE.2
    rw [hEq] at hg
    exact (goodContent_iff _).mp hg
  · rintro ⟨h1, h2⟩
    exact List.mem_map_of_mem _ (List.mem_filter.mpr ⟨hmem, by
      simp [Unified.addElig, hplus, hppp, (goodContent_iff _).mpr ⟨h1, h2⟩]⟩)

/-- Witness for C6: the one-line diff `+a`. -/
theorem claim6_witness :
    Unified.cleanOf c6small ∈
        (Unified.parseDiff c6small).additions.map Unified.ChangeRecord.line ↔
      (Unified.cleanOf c6small ≠ [] ∧ (Unified.cleanOf c6small).length < 200) :=
  claim6_theorem c6small c6small (by decide) (by decide) (by decide) (by decide)
    (by decide)

/-! ## Claim C7 -/

/-- C7 fails as stated: on the diff `+ a` the additions-only filter's
surviving `+` line has content ` a` after the marker is stripped, while the
record normalizer trims it to `a` — the two strategies disagree on a
whitespace-sensitive comparison. -/
theorem claim7_counterexample :
    strat2Added c7diff ≠
      (Unified.parseDiff c7diff).additions.map Unified.ChangeRecord.line := by
  decide

/-- C7 (amended): the two strategies agree after normalizing exactly as the
record extractor does — take the filtered diff's `+` lines without the `+++`
markers, trim each content after the marker, drop contents that are empty or
200 characters or longer, and keep only the first 50; that list equals the
addition records' contents. -/
theorem claim7_theorem (D : List Char) (hne : trimList D ≠ []) :
    ((((splitNl (Legacy.filterDiffForAddedLines D)).filter
          (fun l => isPlus l && !Unified.pppLit.isPrefixOf l)).map Unified.cleanOf).filter
        Unified.goodContent).take 50 =
      (Unified.parseDiff D).additions.map Unified.ChangeRecord.line := by
  have hD : D ≠ [] := fun h => hne (by rw [h]; rfl)
  rw [parseDiff_additions_line D hne, filterDiff_eq D hD]
  by_cases hk : (splitNl D).filter Legacy.keepB = []
  · have hall := List.filter_eq_nil_iff.mp hk
    have hfil : (splitNl D).filter Unified.addElig = [] :=
      List.filter_eq_nil_iff.mpr (fun a ha hE => by
        have hp : isPlus a = true := by
          simp only [Unified.addElig, Bool.and_eq_true] at hE
          exact hE.1.1
        exact hall a ha (keepB_of_isPlus hp))
    rw [hk, hfil]
    rfl
  · have hnl : ∀ l ∈ (splitNl D).filter Legacy.keepB, '\n' ∉ l :=
      fun l hl => not_nl_mem_splitNl D l (List.mem_filter.mp hl).1
    rw [splitNl_joinNl _ hk hnl, List.filter_filter]
    have hpk : ∀ x ∈ splitNl D,
        ((isPlus x && !Unified.pppLit.isPrefixOf x) && Legacy.keepB x) =
          (isPlus x && !Unified.pppLit.isPrefixOf x) := by
      intro x _
      cases hp : (isPlus x && !Unified.pppLit.isPrefixOf x) with
      | false => simp
      | true => simp [keepB_of_isPlus ((Bool.and_eq_true _ _).mp hp).1]
    rw [List.filter_congr hpk, List.filter_map, List.filter_filter]
    have heq : ∀ x ∈ splitNl D,
        ((Unified.goodContent ∘ Unified.cleanOf) x &&
            (isPlus x && !Unified.pppLit.isPrefixOf x)) = Unified.addElig x := by
      intro x _
      simp only [Function.comp_apply, Unified.addElig]
      cases isPlus x <;> cases Unified.pppLit.isPrefixOf x <;>
        cases Unified.goodContent (Unified.cleanOf x) <;> rfl
    rw [List.filter_congr heq]

/-- Witness for C7: the one-line diff `+ a`. -/
theorem claim7_witness :
    ((((splitNl (Legacy.filterDiffForAddedLines c7diff)).filter
          (fun l => isPlus l && !Unified.pppLit.isPrefixOf l)).map Unified.cleanOf).filter
        Unified.goodContent).take 50 =
      (Unified.parseDiff c7diff).additions.map Unified.ChangeRecord.line :=
  claim7_theorem c7diff (by decide)

/-! ## Claim C8 -/

/-- C8: the additions-only filter is idempotent — filtering an already
filtered diff returns it unchanged. -/
theorem claim8_theorem (D : List Char) :
    Legacy.filterDiffForAddedLines (Legacy.filterDiffForAddedLines D) =
      Legacy.filterDiffForAddedLines D := by
  by_cases hD : D = []
  · subst hD; rfl
  · rw [filterDiff_eq D hD]
    by_cases hk : (splitNl D).filter Legacy.keepB = []
    · rw [hk]; rfl
    · by_cases hj : joinNl ((splitNl D).filter Legacy.keepB) = []
      · rw [hj]; rfl
      · rw [filterDiff_eq _ hj]
        have hnl : ∀ l ∈ (splitNl D).filter Legacy.keepB, '\n' ∉ l :=
          fun l hl => not_nl_mem_splitNl D l (List.mem_filter.mp hl).1
        rw [splitNl_joinNl _ hk hnl]
        rw [List.filter_eq_self.mpr (fun a ha => (List.mem_filter.mp ha).2)]

/-! ## Claim C9 -/

/-- C9 fails as stated: with the credential present and an empty staged
diff, the precommit fast-path variant exits 0 (soft skip), not 1. -/
theorem claim9_counterexample :
    Precommit.mainEarly true (some []) = some 0 ∧
    Precommit.mainEarly true (some []) ≠ some 1 := by
  constructor
  · rfl
  · decide

/-- C9 (amended): on a precommit invocation with an empty staged diff (and
the credential present), no remote evaluation call is made in either entry
point: the legacy unified `main` exits 1 (hard stop) while the precommit
fast-path `main` exits 0 (soft skip). -/
theorem claim9_theorem (diff : Option (List Char)) (changedFiles : List String)
    (h : diff = none ∨ ∃ d, diff = some d ∧ trimList d = []) :
    Legacy.mainEarly "precommit" true diff changedFiles = some 1 ∧
    Precommit.mainEarly true diff = some 0 := by
  have hl : Legacy.lookupConfig "precommit" = some Legacy.precommitConfig := rfl
  rcases h with h | ⟨d, hd, ht⟩
  · subst h
    exact ⟨rfl, rfl⟩
  · subst hd
    constructor
    · unfold Legacy.mainEarly
      rw [hl]
      simp [ht]
    · unfold Precommit.mainEarly
      simp [ht]

/-- Witness for C9: the concrete empty-staged-diff invocation. -/
theorem claim9_witness :
    Legacy.mainEarly "precommit" true none [] = some 1 ∧
    Precommit.mainEarly true none = some 0 :=
  claim9_theorem none [] (Or.inl rfl)

/-! ## Claim C10 -/

/-- C10 fails as stated: the legacy general-purpose entry point invoked with
the precommit kind exits 0 (soft skip) when the credential is missing, not
1. -/
theorem claim10_counterexample :
    Legacy.mainEarly "precommit" false (some ['x']) ["f"] = some 0 ∧
    Legacy.mainEarly "precommit" false (some ['x']) ["f"] ≠ some 1 := by
  constructor
  · rfl
  · decide

/-- C10 (amended): with the credential absent, the comprehensive variant and
the new unified variant exit 1 before any review; the legacy unified variant
exits 1 for every known non-precommit review kind but 0 for the precommit
kind; the precommit fast-path variant exits 0. -/
theorem claim10_theorem :
    (∀ diff, CodeReview.mainEarly false diff = some 1) ∧
    (∀ d, UnifiedNew.mainEarly false d = some 1) ∧
    (∀ rt diff files, Legacy.lookupConfig rt ≠ none → rt ≠ "precommit" →
        Legacy.mainEarly rt false diff files = some 1) ∧
    (∀ diff files, Legacy.mainEarly "precommit" false diff files = some 0) ∧
    (∀ diff, Precommit.mainEarly false diff = some 0) := by
  refine ⟨fun diff => rfl, fun d => rfl, ?_, fun diff files => rfl, fun diff => rfl⟩
  intro rt diff files h1 h2
  unfold Legacy.mainEarly
  cases hc : Legacy.lookupConfig rt with
  | none => exact absurd hc h1
  | some cfg =>
    have hb : (rt == "precommit") = false := by
      simp [h2]
    simp [hb]

/-- Witness for C10: a known non-precommit kind with the credential absent
exits 1. -/
theorem claim10_witness :
    Legacy.mainEarly "prepush" false none [] = some 1 :=
  claim10_theorem.2.2.1 "prepush" none [] (by decide) (by decide)

end HuskyReview
